import Mathlib

/-!
Verification of the planguard rule-loading and rule/exception engine.

The configuration data model and the loader are embedded from
`pkg/config/types.go` and `pkg/config/loader.go`; the command-line driver
skeleton is embedded from `cmd/planguard/main.go`.  The rule-evaluation and
exception-filtering engine (packages `scanner` and `reporter`) is not part of
the available sources, so those operations are modelled from the
specification, as marked on each definition.
-/

namespace Planguard

/-- WhenBlock represents a conditional execution block (types.go). -/
structure WhenBlock where
  expression : String
deriving DecidableEq, Repr

/-- Condition represents a rule condition (types.go). -/
structure Condition where
  expression : String
deriving DecidableEq, Repr

/-- Rule represents a security/compliance rule (types.go).  Optional HCL
attributes (`remediation`, `references`) keep their Go zero values as
`Option`/defaulted list. -/
structure Rule where
  id : String
  name : String
  severity : String
  resourceType : String
  when : Option WhenBlock
  conditions : List Condition
  message : String
  remediation : Option String
  references : List String
deriving DecidableEq, Repr

/-- Exception represents a rule exception (types.go).  The Go nil slices for
the optional `paths` and `resource_names` attributes are represented as the
empty list. -/
structure Exception where
  rules : List String
  paths : List String
  resourceNames : List String
  reason : String
  expiresAt : Option String
  approvedBy : String
  ticket : Option String
deriving DecidableEq, Repr

/-- Violation represents a rule violation (types.go). -/
structure Violation where
  ruleId : String
  ruleName : String
  severity : String
  message : String
  file : String
  line : Nat
  column : Nat
  resourceType : String
  resourceName : String
  remediation : String
deriving DecidableEq, Repr

/-- FilteredViolation represents a violation that was filtered by an
exception (types.go). -/
structure FilteredViolation where
  violation : Violation
  exception : Exception
deriving DecidableEq, Repr

/-! ## HCL decoding of rule and exception blocks

`hclsimple.DecodeFile` decodes an HCL body into the tagged Go structs of
types.go.  A raw block records which attributes are syntactically present;
decoding fails (with a "missing required argument" diagnostic) exactly when
an attribute whose struct tag lacks `,optional` is absent.  The block label
(`id` for rules) is always present in a parsed block. -/

/-- Raw parsed rule block, before decoding against the struct tags of
`Rule` in types.go.  `name`, `severity`, `resource_type` and `message` are
required attributes; `when`, `condition`, `remediation`, `references` are
optional. -/
structure RawRuleBlock where
  id : String
  name : Option String
  severity : Option String
  resourceType : Option String
  when : Option WhenBlock
  conditions : List Condition
  message : Option String
  remediation : Option String
  references : Option (List String)
deriving DecidableEq, Repr

/-- Raw parsed exception block, before decoding against the struct tags of
`Exception` in types.go.  `rules`, `reason` and `approved_by` are required
attributes; the rest are optional. -/
structure RawExceptionBlock where
  rules : Option (List String)
  paths : Option (List String)
  resourceNames : Option (List String)
  reason : Option String
  expiresAt : Option String
  approvedBy : Option String
  ticket : Option String
deriving DecidableEq, Repr

/-- Decode one rule block: required attributes must be present (gohcl
semantics for tags without `,optional`); no validation of the severity value
is performed anywhere in the loader. -/
def decodeRule (b : RawRuleBlock) : Except String Rule :=
  match b.name, b.severity, b.resourceType, b.message with
  | some nm, some sv, some rt, some msg =>
      .ok { id := b.id, name := nm, severity := sv, resourceType := rt,
            when := b.when, conditions := b.conditions, message := msg,
            remediation := b.remediation, references := b.references.getD [] }
  | _, _, _, _ => .error "Missing required argument in rule block"

/-- Decode one exception block: `rules`, `reason` and `approved_by` are
required (their struct tags carry no `,optional`). -/
def decodeException (b : RawExceptionBlock) : Except String Exception :=
  match b.rules, b.reason, b.approvedBy with
  | some rs, some r, some a =>
      .ok { rules := rs, paths := b.paths.getD [], resourceNames := b.resourceNames.getD [],
            reason := r, expiresAt := b.expiresAt, approvedBy := a, ticket := b.ticket }
  | _, _, _ => .error "Missing required argument in exception block"

/-- Decode a list of rule blocks, failing on the first bad block (DecodeFile
returns an error for the whole file). -/
def decodeRulesList : List RawRuleBlock → Except String (List Rule)
  | [] => .ok []
  | b :: bs =>
    match decodeRule b with
    | .error e => .error e
    | .ok r =>
      match decodeRulesList bs with
      | .error e => .error e
      | .ok rs => .ok (r :: rs)

/-- Decode a list of exception blocks, failing on the first bad block. -/
def decodeExceptionsList : List RawExceptionBlock → Except String (List Exception)
  | [] => .ok []
  | b :: bs =>
    match decodeException b with
    | .error e => .error e
    | .ok x =>
      match decodeExceptionsList bs with
      | .error e => .error e
      | .ok xs => .ok (x :: xs)

/-- Raw parsed configuration file: the rule and exception blocks of a config
body (loader.go `LoadConfig` via `hclsimple.DecodeFile` into `Config`).
The `settings` and `function` blocks are not referenced by the properties
verified here. -/
structure RawConfig where
  rules : List RawRuleBlock
  exceptions : List RawExceptionBlock
deriving DecidableEq, Repr

/-- Loaded configuration (types.go `Config`, restricted to the fields the
verified properties mention). -/
structure Config where
  rules : List Rule
  exceptions : List Exception
deriving DecidableEq, Repr

/-- LoadConfig (loader.go): decoding the config file fails if any block fails
to decode; otherwise the decoded configuration is returned. -/
def loadConfig (raw : RawConfig) : Except String Config :=
  match decodeRulesList raw.rules with
  | .error e => .error e
  | .ok rs =>
    match decodeExceptionsList raw.exceptions with
    | .error e => .error e
    | .ok es => .ok { rules := rs, exceptions := es }

/-! ## The filesystem as seen by the loader

`LoadRules` interacts with the world through `filepath.Glob`, `os.Stat` and
`hclsimple.DecodeFile`.  These are modelled as oracle fields of an abstract
filesystem: `glob` returns the (possibly empty) expansion of a pattern
(pattern-syntax errors of `filepath.Glob` are out of scope), `stat` returns
the kind of an existing path and `none` when `os.Stat` errors, and `content`
returns the parsed rule blocks of a file or a parse error for malformed
HCL. -/

/-- Kind of a path that exists. -/
inductive FileKind where
  | dir
  | file
deriving DecidableEq, Repr

/-- Abstract filesystem oracle used by the loader. -/
structure FS where
  glob : String → List String
  stat : String → Option FileKind
  content : String → Except String (List RawRuleBlock)

/-- Matches considered for one rules path (loader.go lines 48-57): the glob
expansion, or the literal path when the expansion is empty. -/
def matchesOf (fs : FS) (p : String) : List String :=
  match fs.glob p with
  | [] => [p]
  | ms => ms

/-- DecodeFile for a rules file: parse, then decode every `rule` block. -/
def decodeFile (fs : FS) (path : String) : Except String (List Rule) :=
  match fs.content path with
  | .error e => .error e
  | .ok blocks => decodeRulesList blocks

/-- Inner loop of LoadRules over the matches of one path (loader.go lines
59-86).  A match whose `os.Stat` fails is skipped silently.  A directory
match appends its `*.hcl` files to the slice being ranged over, but Go's
`range` iterates only over the slice's length at loop entry, so those
appended entries are never visited: a directory match contributes nothing. -/
def loadMatches (fs : FS) : List String → Except String (List Rule)
  | [] => .ok []
  | m :: ms =>
    match fs.stat m with
    | none => loadMatches fs ms
    | some .dir => loadMatches fs ms
    | some .file =>
      match decodeFile fs m with
      | .error e => .error e
      | .ok rs =>
        match loadMatches fs ms with
        | .error e => .error e
        | .ok rest => .ok (rs ++ rest)

/-- LoadRules (loader.go lines 44-90): rules from every path, concatenated in
order; the first file that fails to decode aborts the whole load. -/
def loadRules (fs : FS) : List String → Except String (List Rule)
  | [] => .ok []
  | p :: ps =>
    match loadMatches fs (matchesOf fs p) with
    | .error e => .error e
    | .ok rs =>
      match loadRules fs ps with
      | .error e => .error e
      | .ok rest => .ok (rs ++ rest)

/-- filepath.Join of a directory and one more element, for the patterns built
by the loader (both arguments non-empty and already clean in every call
site). -/
def joinPath (dir name : String) : String := dir ++ "/" ++ name

/-- Pattern list built by LoadDefaultRulesWithCategories (loader.go lines
111-164).  With no categories, root plus the aws/azure/common provider
directories; otherwise the root pattern is always added (the category map is
non-empty), then aws/azure by membership, then either the whole common
directory or the specific security/tagging files. -/
def patternsFor (rulesDir : String) (categories : List String) : List String :=
  if categories.isEmpty then
    [joinPath rulesDir "*.hcl",
     joinPath (joinPath rulesDir "aws") "*.hcl",
     joinPath (joinPath rulesDir "azure") "*.hcl",
     joinPath (joinPath rulesDir "common") "*.hcl"]
  else
    [joinPath rulesDir "*.hcl"]
    ++ (if categories.contains "aws" then [joinPath (joinPath rulesDir "aws") "*.hcl"] else [])
    ++ (if categories.contains "azure" then [joinPath (joinPath rulesDir "azure") "*.hcl"] else [])
    ++ (if categories.contains "common" then
          [joinPath (joinPath rulesDir "common") "*.hcl"]
        else
          (if categories.contains "security" then [joinPath (joinPath rulesDir "common") "security.hcl"] else [])
          ++ (if categories.contains "tagging" then [joinPath (joinPath rulesDir "common") "tagging.hcl"] else []))

/-- LoadDefaultRulesWithCategories (loader.go lines 105-167). -/
def loadDefaultRulesWithCategories (fs : FS) (rulesDir : String) (categories : List String) :
    Except String (List Rule) :=
  if rulesDir = "" then .ok []
  else loadRules fs (patternsFor rulesDir categories)

/-- loadConfiguration, restricted to the rules-loading stage (main.go lines
239-256): when the configuration defines no rules and presupplied rules are
enabled, they are loaded from the rules directory patterns; a load error
aborts configuration loading. -/
def loadConfiguration (cfgR : Except String Config) (usePresupplied : Bool)
    (fs : FS) (rulesPatterns : List String) : Except String Config :=
  match cfgR with
  | .error e => .error e
  | .ok cfg =>
    if cfg.rules.isEmpty && usePresupplied then
      match loadRules fs rulesPatterns with
      | .error e => .error e
      | .ok rs => .ok { cfg with rules := rs }
    else .ok cfg

/-! ## Rule evaluation engine

The scanner package is not part of the available sources.  The definitions
below are modelled from the specification (sections 3, 4.3 and 6) and are
marked as such.  The expression evaluator is abstracted as a function
parameter, exactly as the specification treats `evaluate(expr, scope)` as a
pure function of the expression and the current resource. -/

/-- Modelled from the spec: the dynamically-typed value model.  Only the
variants the verified claims distinguish are represented; the rule engine
compares evaluation results against `Value.bool true` and nothing else. -/
inductive Value where
  | null
  | bool (b : Bool)
  | num (n : Int)
  | str (s : String)
deriving DecidableEq, Repr

/-- Resource represents a parsed Terraform resource (types.go), with
attribute values in the modelled value type and raw expression text kept per
attribute. -/
structure Resource where
  type : String
  name : String
  attributes : List (String × Value)
  rawExprs : List (String × String)
  file : String
  line : Nat
  column : Nat
deriving DecidableEq, Repr

/-- Modelled from the spec: resource-type matching is case-sensitive exact
string match, a trailing-wildcard prefix match, or the literal pattern `*`
matching all types (spec section 4.3). -/
def typeMatches (pattern t : String) : Bool :=
  if pattern = "*" then true
  else if pattern.endsWith "*" then (pattern.dropRight 1).isPrefixOf t
  else pattern = t

/-- Violation constructed for a (rule, resource) pair: the resource's
location with the rule's metadata (spec section 4.3). -/
def mkViolation (r : Rule) (res : Resource) : Violation :=
  { ruleId := r.id, ruleName := r.name, severity := r.severity,
    message := r.message, file := res.file, line := res.line,
    column := res.column, resourceType := res.type, resourceName := res.name,
    remediation := r.remediation.getD "" }

/-- Modelled from the spec: all conditions must evaluate to `Bool(true)` for
the rule to register a violation on the resource (conjunction semantics,
spec section 4.3). -/
def checkConditions (eval : String → Resource → Value) (r : Rule) (res : Resource) :
    Option Violation :=
  if r.conditions.all (fun c => decide (eval c.expression res = Value.bool true)) then
    some (mkViolation r res)
  else none

/-- Modelled from the spec: the per-(rule, resource) state machine of the
missing scanner package (spec section 4.3): skip on type mismatch; skip when
a `when` guard is present and evaluates to anything other than `Bool(true)`;
otherwise emit a violation iff every condition evaluates to `Bool(true)`. -/
def evalRule (eval : String → Resource → Value) (r : Rule) (res : Resource) :
    Option Violation :=
  if typeMatches r.resourceType res.type then
    match r.when with
    | some w =>
      if eval w.expression res = Value.bool true then checkConditions eval r res
      else none
    | none => checkConditions eval r res
  else none

/-! ## Exception engine

Modelled from the spec (section 4.4): the exception filter of the missing
scanner package. -/

/-- Modelled from the spec: glob matching over path/name characters, where
`**` matches any sequence of characters including the path separator and
`*` matches any sequence within one segment (never crosses a separator). -/
def globMatch (p s : List Char) : Bool :=
  match p, s with
  | [], [] => true
  | [], _ :: _ => false
  | '*' :: '*' :: p', [] => globMatch p' []
  | '*' :: '*' :: p', c :: s' =>
      globMatch p' (c :: s') || globMatch ('*' :: '*' :: p') s'
  | '*' :: p', [] => globMatch p' []
  | '*' :: p', c :: s' =>
      globMatch p' (c :: s') || (!(c == '/') && globMatch ('*' :: p') s')
  | _ :: _, [] => false
  | c :: p', c' :: s' => (c == c') && globMatch p' s'
termination_by (s.length, p.length)

/-- Modelled from the spec: an exception applies to a violation iff the
violation's rule id is listed, the path patterns are empty or one matches
the violation's file, the resource-name patterns are empty or one matches
the violation's resource name, and the expiry date is absent or `now` is on
or before it (spec section 4.4; dates are ISO `yyyy-mm-dd` strings, whose
lexicographic order is chronological order). -/
def exceptionApplies (now : String) (e : Exception) (v : Violation) : Bool :=
  e.rules.contains v.ruleId
  && (e.paths.isEmpty || e.paths.any (fun p => globMatch p.data v.file.data))
  && (e.resourceNames.isEmpty || e.resourceNames.any (fun p => globMatch p.data v.resourceName.data))
  && (match e.expiresAt with
      | none => true
      | some d => decide (now ≤ d))

/-- Modelled from the spec: the first exception in declaration order that
applies to the violation. -/
def findException (now : String) (es : List Exception) (v : Violation) : Option Exception :=
  es.find? (fun e => exceptionApplies now e v)

/-- Modelled from the spec: split violations into active ones and filtered
ones; the first applicable exception wins and produces one
FilteredViolation, and a violation matched by no exception stays active
(spec section 4.4). -/
def filterViolations (now : String) (es : List Exception) :
    List Violation → List Violation × List FilteredViolation
  | [] => ([], [])
  | v :: vs =>
    let rest := filterViolations now es vs
    match findException now es v with
    | some e => (rest.1, ⟨v, e⟩ :: rest.2)
    | none => (v :: rest.1, rest.2)

/-! ## Severity threshold and exit code

`reporter.ShouldFail` is not part of the available sources; it is modelled
from the spec (section 6).  The exit-code branch is from main.go lines
102-107. -/

/-- Modelled from the spec: the severity ordering `error > warning > info`;
strings outside the three enumerated levels rank below all of them. -/
def severityRank : String → Nat
  | "error" => 3
  | "warning" => 2
  | "info" => 1
  | _ => 0

/-- Modelled from the spec: maximum severity among a list of violations
(zero when the list is empty). -/
def maxSeverity (vs : List Violation) : Nat :=
  vs.foldr (fun v acc => max (severityRank v.severity) acc) 0

/-- Modelled from the spec: the scan should fail iff the maximum severity
among the active violations reaches the configured `fail_on` threshold. -/
def shouldFail (vs : List Violation) (failOn : String) : Bool :=
  decide (severityRank failOn ≤ maxSeverity vs)

/-- Exit code of the reporting stage (main.go lines 102-107): 1 when the
scan should fail, 0 otherwise. -/
def runExitCode (vs : List Violation) (failOn : String) : Nat :=
  if shouldFail vs failOn then 1 else 0

/-- Outcome of one `run` invocation: the process exit code and whether rule
evaluation took place. -/
structure RunOutcome where
  exitCode : Nat
  scanned : Bool
deriving DecidableEq, Repr

/-- Control-flow skeleton of `run` (main.go lines 41-107): a configuration
loading error prints and exits with code 1 before any file is parsed or any
rule evaluated; with no Terraform files found the exit code is also 1
without evaluation; otherwise the scan runs and the exit code comes from the
severity threshold. -/
def runWith (cfgR : Except String Config) (filesFound : Bool)
    (scan : Config → List Violation) (failOn : String) : RunOutcome :=
  match cfgR with
  | .error _ => ⟨1, false⟩
  | .ok cfg =>
    if filesFound then ⟨runExitCode (scan cfg) failOn, true⟩
    else ⟨1, false⟩

/-! ## Concrete instances used by witnesses and counterexamples -/

/-- Sample violation for a rule `r1` on resource `public_bucket`. -/
def vW : Violation :=
  ⟨"r1", "Rule 1", "error", "msg", "main.tf", 5, 3, "aws_s3_bucket", "public_bucket", ""⟩

/-- Exception listing a different rule id, so it never applies to `vW`. -/
def eSkipW : Exception := ⟨["other_rule"], [], [], "unrelated", none, "sec", none⟩

/-- Unscoped, unexpired exception for rule `r1`. -/
def eHitW : Exception := ⟨["r1"], [], [], "testing", none, "sec", none⟩

/-- Exception block with the mandatory `reason` attribute omitted. -/
def noReasonBlock : RawExceptionBlock :=
  ⟨some ["r1"], none, none, none, none, some "sec@example.com", none⟩

/-- Raw configuration containing only the reason-less exception block. -/
def rawCfgW : RawConfig := ⟨[], [noReasonBlock]⟩

/-- Rule with a `when` guard, applying to every resource type. -/
def guardRuleW : Rule :=
  ⟨"g1", "Guarded", "error", "*", some ⟨"self.enabled"⟩, [⟨"true"⟩], "m", none, []⟩

/-- Sample resource for the guard witness. -/
def resW : Resource := ⟨"aws_db_instance", "db", [], [], "db.tf", 1, 1⟩

/-- Sample error-severity violation for the threshold witness. -/
def errV : Violation := ⟨"r2", "R2", "error", "m", "f.tf", 1, 1, "t", "n", ""⟩

/-- Rule block whose severity is the non-enumerated string "critical". -/
def badSeverityBlock : RawRuleBlock :=
  ⟨"r1", some "Rule 1", some "critical", some "aws_instance", none, [⟨"true"⟩],
   some "m", none, none⟩

/-- Filesystem holding a single rules file with the "critical"-severity rule. -/
def fsCritical : FS :=
  ⟨fun _ => [],
   fun p => if p = "rules.hcl" then some .file else none,
   fun p => if p = "rules.hcl" then .ok [badSeverityBlock] else .error "no such file"⟩

/-- The rule decoded from `badSeverityBlock`, severity kept verbatim. -/
def criticalRule : Rule :=
  ⟨"r1", "Rule 1", "critical", "aws_instance", none, [⟨"true"⟩], "m", none, []⟩

/-- First rule block with id "dup". -/
def dupBlockA : RawRuleBlock :=
  ⟨"dup", some "A", some "error", some "*", none, [], some "a", none, none⟩

/-- Second rule block with the same id "dup". -/
def dupBlockB : RawRuleBlock :=
  ⟨"dup", some "B", some "warning", some "*", none, [], some "b", none, none⟩

/-- Filesystem with two rule files that declare the same rule id. -/
def fsDup : FS :=
  ⟨fun _ => [],
   fun p => if p = "a.hcl" then some .file else if p = "b.hcl" then some .file else none,
   fun p =>
     if p = "a.hcl" then .ok [dupBlockA]
     else if p = "b.hcl" then .ok [dupBlockB]
     else .error "no such file"⟩

/-- Rule decoded from `dupBlockA`. -/
def dupRuleA : Rule := ⟨"dup", "A", "error", "*", none, [], "a", none, []⟩

/-- Rule decoded from `dupBlockB`. -/
def dupRuleB : Rule := ⟨"dup", "B", "warning", "*", none, [], "b", none, []⟩

/-- Filesystem with one malformed rules file. -/
def fsMalformed : FS :=
  ⟨fun _ => [],
   fun p => if p = "bad.hcl" then some .file else none,
   fun p => if p = "bad.hcl" then .error "parse error at 1,9" else .ok []⟩

/-- Configuration that defines no rules of its own. -/
def cfgEmptyW : Config := ⟨[], []⟩

/-- Filesystem on which every lookup fails: nothing globs, nothing exists. -/
def fsEmptyW : FS := ⟨fun _ => [], fun _ => none, fun _ => .error "missing"⟩

/-! ## Helper lemmas -/

/-- A finite maximum dominates a positive bound iff some element does. -/
lemma le_maxSeverity_iff (k : Nat) (hk : 1 ≤ k) (vs : List Violation) :
    k ≤ maxSeverity vs ↔ ∃ v ∈ vs, k ≤ severityRank v.severity := by
  induction vs with
  | nil => simp [maxSeverity]; omega
  | cons v vs ih =>
    have hstep : maxSeverity (v :: vs) = max (severityRank v.severity) (maxSeverity vs) := rfl
    rw [hstep, le_max_iff, ih]
    simp

/-- find? returns the head of the first satisfying suffix. -/
lemma find?_append_first {α : Type} (p : α → Bool) (l₁ l₂ : List α) (a : α)
    (h₁ : ∀ x ∈ l₁, p x = false) (h₂ : p a = true) :
    List.find? p (l₁ ++ a :: l₂) = some a := by
  induction l₁ with
  | nil => simpa using List.find?_cons_of_pos l₂ h₂
  | cons b l ih =>
    have hb : ¬ p b := by simp [h₁ b (by simp)]
    have := List.find?_cons_of_neg (l ++ a :: l₂) hb
    simpa [this] using ih fun x hx => h₁ x (by simp [hx])

/-- Output characterization of the exception filter. -/
lemma filterViolations_eq (now : String) (es : List Exception) (vs : List Violation) :
    (filterViolations now es vs).1 = vs.filter (fun x => (findException now es x).isNone)
    ∧ (filterViolations now es vs).2
        = vs.filterMap (fun x => (findException now es x).map (fun ex => FilteredViolation.mk x ex)) := by
  induction vs with
  | nil => simp [filterViolations]
  | cons v vs ih =>
    cases hf : findException now es v with
    | none => simp [filterViolations, hf, List.filter_cons, List.filterMap_cons, ih.1, ih.2]
    | some e => simp [filterViolations, hf, List.filter_cons, List.filterMap_cons, ih.1, ih.2]

/-- A failing exception block anywhere in the list fails the whole decode. -/
lemma decodeExceptionsList_error_of_mem {b : RawExceptionBlock} {bs : List RawExceptionBlock}
    (hb : b ∈ bs) {msg : String} (he : decodeException b = .error msg) :
    ∃ m, decodeExceptionsList bs = .error m := by
  induction bs with
  | nil => cases hb
  | cons c cs ih =>
    rcases List.mem_cons.mp hb with rfl | hb'
    · exact ⟨msg, by simp [decodeExceptionsList, he]⟩
    · cases hc : decodeException c with
      | error m => exact ⟨m, by simp [decodeExceptionsList, hc]⟩
      | ok x =>
        obtain ⟨m, hm⟩ := ih hb'
        exact ⟨m, by simp [decodeExceptionsList, hc, hm]⟩

/-- An exception block missing `reason` or `approved_by` fails to decode. -/
lemma decodeException_error_of_missing {b : RawExceptionBlock}
    (h : b.reason = none ∨ b.approvedBy = none) :
    ∃ msg, decodeException b = .error msg := by
  refine ⟨"Missing required argument in exception block", ?_⟩
  rcases h with h | h <;>
    cases hr : b.rules <;> cases ha : b.approvedBy <;> cases hre : b.reason <;>
      simp_all [decodeException]

/-- A match with existing malformed-file content fails the inner loop. -/
lemma loadMatches_error_of_mem (fs : FS) {m : String} {ms : List String} {msg : String}
    (hm : m ∈ ms) (hst : fs.stat m = some .file) (hbad : fs.content m = .error msg) :
    ∃ e, loadMatches fs ms = .error e := by
  induction ms with
  | nil => cases hm
  | cons c cs ih =>
    rcases List.mem_cons.mp hm with rfl | hm'
    · exact ⟨msg, by simp [loadMatches, hst, decodeFile, hbad]⟩
    · cases hsc : fs.stat c with
      | none =>
        obtain ⟨e, he⟩ := ih hm'
        exact ⟨e, by simp [loadMatches, hsc, he]⟩
      | some k =>
        cases k with
        | dir =>
          obtain ⟨e, he⟩ := ih hm'
          exact ⟨e, by simp [loadMatches, hsc, he]⟩
        | file =>
          cases hdf : decodeFile fs c with
          | error e => exact ⟨e, by simp [loadMatches, hsc, hdf]⟩
          | ok rs =>
            obtain ⟨e, he⟩ := ih hm'
            exact ⟨e, by simp [loadMatches, hsc, hdf, he]⟩

/-- A pattern whose matches fail to load fails the whole LoadRules call. -/
lemma loadRules_error_of_pattern (fs : FS) {p : String} {paths : List String}
    (hp : p ∈ paths) (herr : ∃ e, loadMatches fs (matchesOf fs p) = .error e) :
    ∃ e, loadRules fs paths = .error e := by
  induction paths with
  | nil => cases hp
  | cons q qs ih =>
    cases hq : loadMatches fs (matchesOf fs q) with
    | error e => exact ⟨e, by simp [loadRules, hq]⟩
    | ok rs =>
      rcases List.mem_cons.mp hp with rfl | hp'
      · obtain ⟨e, he⟩ := herr
        rw [he] at hq
        cases hq
      · obtain ⟨e, he⟩ := ih hp'
        exact ⟨e, by simp [loadRules, hq, he]⟩

/-- Length of a joined path. -/
lemma joinPath_length (d s : String) : (joinPath d s).length = d.length + 1 + s.length := by
  have h1 : ("/" : String).length = 1 := rfl
  simp [joinPath, String.length_append, h1]

/-- Strings of different lengths are different. -/
lemma ne_of_length_ne {x y : String} (hxy : x.length ≠ y.length) : x ≠ y :=
  fun h => hxy (congrArg String.length h)

/-- Length of the literal pattern suffixes used by the loader. -/
lemma pattern_suffix_lengths :
    ("*.hcl" : String).length = 5 ∧ ("security.hcl" : String).length = 12
    ∧ ("tagging.hcl" : String).length = 11 ∧ ("aws" : String).length = 3
    ∧ ("azure" : String).length = 5 ∧ ("common" : String).length = 6 := by
  exact ⟨rfl, rfl, rfl, rfl, rfl, rfl⟩

/-- Closed form of the pattern list when "common" is among the selected
categories. -/
lemma patternsFor_common_eq (dir : String) (cats : List String)
    (hne : cats ≠ []) (hc : cats.contains "common" = true) :
    patternsFor dir cats =
      joinPath dir "*.hcl" ::
        ((if cats.contains "aws" = true then [joinPath (joinPath dir "aws") "*.hcl"] else [])
          ++ (if cats.contains "azure" = true then [joinPath (joinPath dir "azure") "*.hcl"] else [])
          ++ [joinPath (joinPath dir "common") "*.hcl"]) := by
  have hie : cats.isEmpty = false := by
    cases cats with
    | nil => simp at hne
    | cons c cs => rfl
  have hc' : "common" ∈ cats := by simpa using hc
  simp [patternsFor, hie, hc']

/-- A string distinct from all four candidate patterns of the common branch
is not among the built patterns. -/
lemma not_mem_patternsFor_common (dir : String) (cats : List String)
    (hne : cats ≠ []) (hc : cats.contains "common" = true) (s : String)
    (h0 : s ≠ joinPath dir "*.hcl")
    (h1 : s ≠ joinPath (joinPath dir "aws") "*.hcl")
    (h2 : s ≠ joinPath (joinPath dir "azure") "*.hcl")
    (h3 : s ≠ joinPath (joinPath dir "common") "*.hcl") :
    s ∉ patternsFor dir cats := by
  intro hmem
  rw [patternsFor_common_eq dir cats hne hc] at hmem
  rcases List.mem_cons.mp hmem with h | hmem2
  · exact h0 h
  rcases List.mem_append.mp hmem2 with hmem3 | hmem4
  · rcases List.mem_append.mp hmem3 with hA | hB
    · split at hA
      · exact h1 (by simpa using hA)
      · simp at hA
    · split at hB
      · exact h2 (by simpa using hB)
      · simp at hB
  · exact h3 (by simpa using hmem4)

/-! ## Claims -/

/-- C1: an exception applies to a violation iff all four conditions hold:
the violation's rule id is in the exception's rule-id set; the path pattern
list is empty or the violation's file matches one pattern under glob
semantics; the resource-name pattern list is empty or the resource name
matches one pattern; and the expiry date is absent or `now` is on or before
it. -/
theorem exceptionApplies_iff (now : String) (e : Exception) (v : Violation) :
    exceptionApplies now e v = true ↔
      v.ruleId ∈ e.rules
      ∧ (e.paths = [] ∨ ∃ p ∈ e.paths, globMatch p.data v.file.data = true)
      ∧ (e.resourceNames = [] ∨ ∃ p ∈ e.resourceNames, globMatch p.data v.resourceName.data = true)
      ∧ (e.expiresAt = none ∨ ∃ d, e.expiresAt = some d ∧ now ≤ d) := by
  cases hx : e.expiresAt <;>
    simp [exceptionApplies, hx, Bool.and_eq_true, Bool.or_eq_true, List.any_eq_true,
      List.isEmpty_iff, and_assoc]

/-- C2: the exception filter pairs each violation with the first exception
in declaration order that applies to it, producing exactly one
FilteredViolation per matched violation, and every violation matched by no
exception appears unchanged in the active output. -/
theorem filterViolations_first_match_spec (now : String) (es : List Exception)
    (vs : List Violation) (es₁ es₂ : List Exception) (e : Exception) (v : Violation)
    (h₁ : ∀ x ∈ es₁, exceptionApplies now x v = false)
    (h₂ : exceptionApplies now e v = true) :
    (filterViolations now es vs).1 = vs.filter (fun x => (findException now es x).isNone)
    ∧ (filterViolations now es vs).2
        = vs.filterMap (fun x => (findException now es x).map (fun ex => FilteredViolation.mk x ex))
    ∧ findException now (es₁ ++ e :: es₂) v = some e := by
  refine ⟨(filterViolations_eq now es vs).1, (filterViolations_eq now es vs).2, ?_⟩
  exact find?_append_first _ es₁ es₂ e h₁ h₂

/-- C2 witness: on a concrete violation and exception list, the filter pairs
the violation with the first applicable exception. -/
theorem filterViolations_first_match_witness :
    (∀ x ∈ [eSkipW], exceptionApplies "2025-06-01" x vW = false)
    ∧ exceptionApplies "2025-06-01" eHitW vW = true
    ∧ ((filterViolations "2025-06-01" [eSkipW, eHitW] [vW]).1
        = [vW].filter (fun x => (findException "2025-06-01" [eSkipW, eHitW] x).isNone)
      ∧ (filterViolations "2025-06-01" [eSkipW, eHitW] [vW]).2
        = [vW].filterMap (fun x => (findException "2025-06-01" [eSkipW, eHitW] x).map
            (fun ex => FilteredViolation.mk x ex))
      ∧ findException "2025-06-01" ([eSkipW] ++ eHitW :: []) vW = some eHitW) :=
  ⟨by decide, by decide,
   filterViolations_first_match_spec "2025-06-01" [eSkipW, eHitW] [vW] [eSkipW] [] eHitW vW
     (by decide) (by decide)⟩

/-- C3: a configuration whose exception block omits the mandatory `reason`
or `approved_by` attribute fails at load time with an error, and the run
aborts with exit code 1 before any rule evaluation takes place. -/
theorem missing_audit_fields_fail_at_load (raw : RawConfig) (b : RawExceptionBlock)
    (filesFound : Bool) (scan : Config → List Violation) (failOn : String)
    (hb : b ∈ raw.exceptions) (hmiss : b.reason = none ∨ b.approvedBy = none) :
    (∃ msg, decodeException b = .error msg)
    ∧ (∃ msg, loadConfig raw = .error msg)
    ∧ runWith (loadConfig raw) filesFound scan failOn = ⟨1, false⟩ := by
  obtain ⟨msg, hmsg⟩ := decodeException_error_of_missing hmiss
  obtain ⟨m, hm⟩ := decodeExceptionsList_error_of_mem hb hmsg
  have hload : ∃ m2, loadConfig raw = .error m2 := by
    cases hdr : decodeRulesList raw.rules with
    | error e2 => exact ⟨e2, by simp [loadConfig, hdr]⟩
    | ok rs => exact ⟨m, by simp [loadConfig, hdr, hm]⟩
  obtain ⟨m2, hm2⟩ := hload
  exact ⟨⟨msg, hmsg⟩, ⟨m2, hm2⟩, by simp [runWith, hm2]⟩

/-- C3 witness: a concrete config whose only exception block has no
`reason` fails to load and the run exits 1 without scanning. -/
theorem missing_audit_fields_witness :
    noReasonBlock ∈ rawCfgW.exceptions
    ∧ (noReasonBlock.reason = none ∨ noReasonBlock.approvedBy = none)
    ∧ ((∃ msg, decodeException noReasonBlock = .error msg)
      ∧ (∃ msg, loadConfig rawCfgW = .error msg)
      ∧ runWith (loadConfig rawCfgW) true (fun _ => []) "error" = ⟨1, false⟩) :=
  ⟨by decide, by decide,
   missing_audit_fields_fail_at_load rawCfgW noReasonBlock true (fun _ => []) "error"
     (by decide) (by decide)⟩

/-- C4: with a fail_on threshold among error, warning and info, the run
reports a non-zero outcome iff some active violation reaches the threshold
under the ordering error > warning > info (equivalently, iff the maximum
severity reaches it), and with no active violations it reports success. -/
theorem shouldFail_threshold_spec (vs : List Violation) (failOn : String)
    (h : failOn = "error" ∨ failOn = "warning" ∨ failOn = "info") :
    (runExitCode vs failOn ≠ 0 ↔ ∃ v ∈ vs, severityRank failOn ≤ severityRank v.severity)
    ∧ (shouldFail vs failOn = true ↔ severityRank failOn ≤ maxSeverity vs)
    ∧ runExitCode [] failOn = 0 := by
  have hk : 1 ≤ severityRank failOn := by
    rcases h with h | h | h <;> subst h <;> decide
  have hiff : shouldFail vs failOn = true ↔ severityRank failOn ≤ maxSeverity vs := by
    simp [shouldFail]
  refine ⟨?_, hiff, ?_⟩
  · cases hsf : shouldFail vs failOn with
    | true =>
      simp only [runExitCode, hsf, if_true]
      rw [← le_maxSeverity_iff _ hk vs, ← hiff]
      simp [hsf]
    | false =>
      simp only [runExitCode, hsf, if_false]
      rw [← le_maxSeverity_iff _ hk vs, ← hiff]
      simp [hsf]
  · have : shouldFail [] failOn = false := by
      simp [shouldFail, maxSeverity]; omega
    simp [runExitCode, this]

/-- C4 witness: with threshold "error" and one error-severity active
violation the outcome is non-zero, and the empty list reports success. -/
theorem shouldFail_threshold_witness :
    (("error" : String) = "error" ∨ ("error" : String) = "warning" ∨ ("error" : String) = "info")
    ∧ ((runExitCode [errV] "error" ≠ 0 ↔ ∃ v ∈ [errV], severityRank "error" ≤ severityRank v.severity)
      ∧ (shouldFail [errV] "error" = true ↔ severityRank "error" ≤ maxSeverity [errV])
      ∧ runExitCode [] "error" = 0) :=
  ⟨by decide, shouldFail_threshold_spec [errV] "error" (by decide)⟩

/-- C5: when a rule's `when` guard evaluates to any value other than
Bool(true) for a type-matching resource, no violation is produced for that
(rule, resource) pair, regardless of how the conditions would evaluate. -/
theorem when_guard_not_true_skips (eval : String → Resource → Value) (r : Rule)
    (res : Resource) (w : WhenBlock) (hw : r.when = some w)
    (ht : typeMatches r.resourceType res.type = true)
    (hg : eval w.expression res ≠ Value.bool true) :
    evalRule eval r res = none := by
  simp [evalRule, hw, ht, hg]

/-- C5 witness: a guard evaluating to Null skips the rule on a concrete
resource even though the rule's condition would hold. -/
theorem when_guard_not_true_witness :
    guardRuleW.when = some ⟨"self.enabled"⟩
    ∧ typeMatches guardRuleW.resourceType resW.type = true
    ∧ (fun _ _ => Value.null) "self.enabled" resW ≠ Value.bool true
    ∧ evalRule (fun _ _ => Value.null) guardRuleW resW = none :=
  ⟨by decide, by decide, by decide,
   when_guard_not_true_skips (fun _ _ => Value.null) guardRuleW resW ⟨"self.enabled"⟩
     (by decide) (by decide) (by decide)⟩

/-- C6 counterexample: loading accepts a rule whose severity is "critical",
a string outside the three enumerated levels, and places it in the active
rule set. -/
theorem severity_unvalidated_counterexample :
    loadRules fsCritical ["rules.hcl"] = .ok [criticalRule]
    ∧ criticalRule.severity = "critical"
    ∧ criticalRule.severity ≠ "error" ∧ criticalRule.severity ≠ "warning"
    ∧ criticalRule.severity ≠ "info" :=
  ⟨rfl, rfl, by decide, by decide, by decide⟩

/-- C6 (amended): loading performs no severity validation; a rule block
whose required attributes are present decodes successfully with its severity
string preserved verbatim, whatever its value, and LoadRules places the
decoded rule in the active rule set. -/
theorem decodeRule_severity_verbatim (fs : FS) (path : String) (b : RawRuleBlock)
    (nm sv rt msg : String)
    (hn : b.name = some nm) (hs : b.severity = some sv)
    (hr : b.resourceType = some rt) (hm : b.message = some msg)
    (hg : fs.glob path = []) (hst : fs.stat path = some .file)
    (hc : fs.content path = .ok [b]) :
    ∃ r : Rule, decodeRule b = .ok r ∧ r.severity = sv ∧ loadRules fs [path] = .ok [r] := by
  refine ⟨{ id := b.id, name := nm, severity := sv, resourceType := rt, when := b.when,
            conditions := b.conditions, message := msg, remediation := b.remediation,
            references := b.references.getD [] }, ?_, rfl, ?_⟩
  · simp [decodeRule, hn, hs, hr, hm]
  · simp [loadRules, matchesOf, hg, loadMatches, hst, decodeFile, hc, decodeRulesList,
      decodeRule, hn, hs, hr, hm]

/-- C6 witness: the "critical"-severity block decodes and loads verbatim. -/
theorem decodeRule_severity_verbatim_witness :
    badSeverityBlock.name = some "Rule 1"
    ∧ badSeverityBlock.severity = some "critical"
    ∧ badSeverityBlock.resourceType = some "aws_instance"
    ∧ badSeverityBlock.message = some "m"
    ∧ fsCritical.glob "rules.hcl" = []
    ∧ fsCritical.stat "rules.hcl" = some .file
    ∧ fsCritical.content "rules.hcl" = .ok [badSeverityBlock]
    ∧ (∃ r : Rule, decodeRule badSeverityBlock = .ok r ∧ r.severity = "critical"
        ∧ loadRules fsCritical ["rules.hcl"] = .ok [r]) :=
  ⟨rfl, rfl, rfl, rfl, rfl, rfl, rfl,
   decodeRule_severity_verbatim fsCritical "rules.hcl" badSeverityBlock
     "Rule 1" "critical" "aws_instance" "m" rfl rfl rfl rfl rfl rfl rfl⟩

/-- C7 counterexample: two files each declaring the rule id "dup" load into
an active rule set whose ids are not pairwise distinct. -/
theorem duplicate_rule_ids_counterexample :
    loadRules fsDup ["a.hcl", "b.hcl"] = .ok [dupRuleA, dupRuleB]
    ∧ dupRuleA.id = dupRuleB.id
    ∧ ¬ List.Pairwise (fun a b => a.id ≠ b.id) [dupRuleA, dupRuleB] :=
  ⟨rfl, rfl, by decide⟩

/-- C7 (amended): LoadRules concatenates the rules of each listed path in
order and performs no id-uniqueness check, so ids repeated across files (or
within one) are preserved in the active rule set. -/
theorem loadRules_append_no_dedup (fs : FS) (p : String) (ps : List String)
    (rs₁ rs₂ : List Rule)
    (h1 : loadRules fs [p] = .ok rs₁) (h2 : loadRules fs ps = .ok rs₂) :
    loadRules fs (p :: ps) = .ok (rs₁ ++ rs₂) := by
  cases hm : loadMatches fs (matchesOf fs p) with
  | error e => simp [loadRules, hm] at h1
  | ok rs =>
    have h1' : rs = rs₁ := by simpa [loadRules, hm] using h1
    subst h1'
    simp [loadRules, hm, h2]

/-- C7 witness: the two duplicate-id files load as the concatenation of
their rule lists. -/
theorem loadRules_append_no_dedup_witness :
    loadRules fsDup ["a.hcl"] = .ok [dupRuleA]
    ∧ loadRules fsDup ["b.hcl"] = .ok [dupRuleB]
    ∧ loadRules fsDup ("a.hcl" :: ["b.hcl"]) = .ok ([dupRuleA] ++ [dupRuleB]) :=
  ⟨rfl, rfl, loadRules_append_no_dedup fsDup "a.hcl" ["b.hcl"] [dupRuleA] [dupRuleB] rfl rfl⟩

/-- C8: a matched rules file with malformed HCL makes LoadRules return an
error rather than a rule list, configuration loading propagates the error,
and the run aborts with exit code 1 before any resource is evaluated, so a
rule that cannot be loaded is never silently dropped. -/
theorem malformed_rules_file_aborts (fs : FS) (paths : List String) (p m msg : String)
    (cfg : Config) (filesFound : Bool) (scan : Config → List Violation) (failOn : String)
    (hp : p ∈ paths) (hm : m ∈ matchesOf fs p)
    (hstat : fs.stat m = some .file) (hbad : fs.content m = .error msg)
    (hcfg : cfg.rules = []) :
    (∃ e, loadRules fs paths = .error e)
    ∧ (∃ e, loadConfiguration (.ok cfg) true fs paths = .error e)
    ∧ runWith (loadConfiguration (.ok cfg) true fs paths) filesFound scan failOn = ⟨1, false⟩ := by
  obtain ⟨e, he⟩ := loadRules_error_of_pattern fs hp (loadMatches_error_of_mem fs hm hstat hbad)
  have h2 : loadConfiguration (.ok cfg) true fs paths = .error e := by
    simp [loadConfiguration, hcfg, he]
  exact ⟨⟨e, he⟩, ⟨e, h2⟩, by simp [runWith, h2]⟩

/-- C8 witness: one malformed file aborts the load and the run. -/
theorem malformed_rules_file_aborts_witness :
    ("bad.hcl" : String) ∈ ["bad.hcl"]
    ∧ ("bad.hcl" : String) ∈ matchesOf fsMalformed "bad.hcl"
    ∧ fsMalformed.stat "bad.hcl" = some .file
    ∧ fsMalformed.content "bad.hcl" = .error "parse error at 1,9"
    ∧ cfgEmptyW.rules = []
    ∧ ((∃ e, loadRules fsMalformed ["bad.hcl"] = .error e)
      ∧ (∃ e, loadConfiguration (.ok cfgEmptyW) true fsMalformed ["bad.hcl"] = .error e)
      ∧ runWith (loadConfiguration (.ok cfgEmptyW) true fsMalformed ["bad.hcl"]) true
          (fun _ => []) "error" = ⟨1, false⟩) :=
  ⟨by decide, by decide, rfl, rfl, rfl,
   malformed_rules_file_aborts fsMalformed ["bad.hcl"] "bad.hcl" "bad.hcl"
     "parse error at 1,9" cfgEmptyW true (fun _ => []) "error"
     (by decide) (by decide) rfl rfl rfl⟩

/-- C9: a listed path whose glob expansion is empty and whose literal stat
fails is skipped without an error: LoadRules returns the rules of the
remaining paths, and a wholly nonexistent path alone yields the empty rule
list and success. -/
theorem nonexistent_path_skipped (fs : FS) (p : String) (ps : List String)
    (hg : fs.glob p = []) (hs : fs.stat p = none) :
    loadRules fs (p :: ps) = loadRules fs ps ∧ loadRules fs [p] = .ok [] := by
  have hmat : matchesOf fs p = [p] := by simp [matchesOf, hg]
  have hlm : loadMatches fs [p] = .ok [] := by simp [loadMatches, hs]
  constructor
  · cases hrest : loadRules fs ps with
    | error e => simp [loadRules, hmat, hlm, hrest]
    | ok rs => simp [loadRules, hmat, hlm, hrest]
  · simp [loadRules, hmat, hlm]

/-- C9 witness: the nonexistent pattern of TestLoadRulesNonexistent yields
the empty rule list without an error. -/
theorem nonexistent_path_skipped_witness :
    fsEmptyW.glob "/nonexistent/path/*.hcl" = []
    ∧ fsEmptyW.stat "/nonexistent/path/*.hcl" = none
    ∧ (loadRules fsEmptyW ("/nonexistent/path/*.hcl" :: []) = loadRules fsEmptyW []
      ∧ loadRules fsEmptyW ["/nonexistent/path/*.hcl"] = .ok []) :=
  ⟨rfl, rfl, nonexistent_path_skipped fsEmptyW "/nonexistent/path/*.hcl" [] rfl rfl⟩

/-- C10: with a non-empty category list, the root *.hcl pattern is always
among the loaded patterns, and selecting "common" loads the whole common
directory instead of adding the specific security.hcl and tagging.hcl file
patterns. -/
theorem category_patterns_root_and_common (fs : FS) (dir : String) (cats : List String)
    (hne : cats ≠ []) (hdir : dir ≠ "") :
    loadDefaultRulesWithCategories fs dir cats = loadRules fs (patternsFor dir cats)
    ∧ joinPath dir "*.hcl" ∈ patternsFor dir cats
    ∧ (cats.contains "common" = true →
        joinPath (joinPath dir "common") "*.hcl" ∈ patternsFor dir cats
        ∧ joinPath (joinPath dir "common") "security.hcl" ∉ patternsFor dir cats
        ∧ joinPath (joinPath dir "common") "tagging.hcl" ∉ patternsFor dir cats) := by
  obtain ⟨l1, l2, l3, l4, l5, l6⟩ := pattern_suffix_lengths
  refine ⟨by simp [loadDefaultRulesWithCategories, hdir], ?_, ?_⟩
  · by_cases hie : cats.isEmpty <;> simp [patternsFor, hie]
  · intro hc
    refine ⟨?_, ?_, ?_⟩
    · rw [patternsFor_common_eq dir cats hne hc]
      simp
    · refine not_mem_patternsFor_common dir cats hne hc _ ?_ ?_ ?_ ?_ <;>
        (apply ne_of_length_ne; simp only [joinPath_length, l1, l2, l3, l4, l5, l6]; omega)
    · refine not_mem_patternsFor_common dir cats hne hc _ ?_ ?_ ?_ ?_ <;>
        (apply ne_of_length_ne; simp only [joinPath_length, l1, l2, l3, l4, l5, l6]; omega)

/-- C10 witness: with categories ["common"], the root pattern is present,
the common directory pattern is present, and the security/tagging file
patterns are absent. -/
theorem category_patterns_root_and_common_witness :
    (["common"] : List String) ≠ []
    ∧ ("rules" : String) ≠ ""
    ∧ (loadDefaultRulesWithCategories fsEmptyW "rules" ["common"]
        = loadRules fsEmptyW (patternsFor "rules" ["common"])
      ∧ joinPath "rules" "*.hcl" ∈ patternsFor "rules" ["common"]
      ∧ ((["common"] : List String).contains "common" = true →
          joinPath (joinPath "rules" "common") "*.hcl" ∈ patternsFor "rules" ["common"]
          ∧ joinPath (joinPath "rules" "common") "security.hcl" ∉ patternsFor "rules" ["common"]
          ∧ joinPath (joinPath "rules" "common") "tagging.hcl" ∉ patternsFor "rules" ["common"])) :=
  ⟨by decide, by decide,
   category_patterns_root_and_common fsEmptyW "rules" ["common"] (by decide) (by decide)⟩

end Planguard
